import Mathlib

/-!
Verification of the payment-request codec and error classifier of the
`pay-with-solana` starter application (`src/lib/validators.ts`,
`src/lib/errors.ts`, constants from `src/lib/constants.ts`).

Modelling conventions:
* JS strings handled by the URI codec are modelled as their byte sequences
  (`List Nat`, one element per UTF-8 byte).  All witnesses and
  counterexamples below use ASCII data, where the model is exact.
* JS numbers are modelled by `JSNum`: a rational (`ℚ`), `NaN`, or `±Infinity`.
  Every finite IEEE double is a rational with a terminating decimal
  expansion, which is the fragment `numToString` prints exactly;
  `jsParseFloat` follows the ECMA-262 `parseFloat` grammar.
* Web platform primitives used by the source (`URLSearchParams`,
  `decodeURIComponent`, `bs58.decode` inside `new PublicKey`) are modelled
  from their standard specifications, at the byte level.  The lossy
  "replace invalid UTF-8 by U+FFFD" step of `URLSearchParams` text decoding
  is not modelled; no claim depends on it and all concrete inputs are ASCII.
* Exceptions are modelled by `Option`: a `none` from
  `decodeURIComponentM` plays the role of a thrown `URIError`, which the
  `try/catch` of `parsePaymentQR` turns into a `null` result.
-/

namespace PayApp

/-- Byte strings: the UTF-8 bytes of a JS string. -/
abbrev Bytes := List Nat

/-- Bytes of an ASCII string literal (exact for all characters below 0x80). -/
def s2b (s : String) : Bytes := s.data.map Char.toNat

/-- `SOLANA_PAY_PROTOCOL = 'solana:'` from `src/lib/constants.ts`. -/
def SOLANA_PAY_PROTOCOL : Bytes := s2b "solana:"

/-- JS `String.prototype.split(sep)` with a one-byte separator and no limit:
splits on every occurrence, `"".split(sep) = [""]`. -/
def splitSep (sep : Nat) : Bytes → List Bytes
  | [] => [[]]
  | b :: rest =>
    match splitSep sep rest with
    | [] => [[]]
    | h :: t => if b = sep then [] :: h :: t else (b :: h) :: t

/-- Split on the first occurrence of `sep`: pair of the part before it and the
part after it (second component empty when `sep` is absent).  This is how the
WHATWG urlencoded parser splits a `name=value` piece on `'='`. -/
def splitFirst (sep : Nat) : Bytes → Bytes × Bytes
  | [] => ([], [])
  | b :: rest =>
    if b = sep then ([], rest)
    else
      let p := splitFirst sep rest
      (b :: p.1, p.2)

/-- Value of an ASCII hex digit (both cases), `none` for non-hex bytes. -/
def hexVal (b : Nat) : Option Nat :=
  if 48 ≤ b ∧ b ≤ 57 then some (b - 48)
  else if 65 ≤ b ∧ b ≤ 70 then some (b - 55)
  else if 97 ≤ b ∧ b ≤ 102 then some (b - 87)
  else none

/-- Lenient `application/x-www-form-urlencoded` decoding used by the
`URLSearchParams` parser: `'+'` becomes a space, `%XY` with two hex digits
becomes the byte `0xXY`, anything else (including malformed `%`) is kept
verbatim.  Never fails. -/
def formDecode : Bytes → Bytes
  | [] => []
  | 37 :: h1 :: h2 :: rest =>
    match hexVal h1, hexVal h2 with
    | some a, some c => (16 * a + c) :: formDecode rest
    | _, _ => 37 :: formDecode (h1 :: h2 :: rest)
  | 43 :: rest => 32 :: formDecode rest
  | b :: rest => b :: formDecode rest

/-- Bytes kept verbatim by the `application/x-www-form-urlencoded` serializer:
`0-9 A-Z a-z * - . _`. -/
def urlKeep (b : Nat) : Bool :=
  b = 42 || b = 45 || b = 46 || b = 95 ||
  (48 ≤ b && b ≤ 57) || (65 ≤ b && b ≤ 90) || (97 ≤ b && b ≤ 122)

/-- Uppercase hex digit byte for a value below 16. -/
def hexDigit (n : Nat) : Nat := if n < 10 then 48 + n else 55 + n

/-- Per-byte `application/x-www-form-urlencoded` serialization: space becomes
`'+'`, unreserved bytes are kept, everything else becomes `%XY`. -/
def formEncodeByte (b : Nat) : Bytes :=
  if b = 32 then [43]
  else if urlKeep b then [b]
  else [37, hexDigit (b / 16), hexDigit (b % 16)]

/-- `application/x-www-form-urlencoded` serialization of a byte string. -/
def formEncode (l : Bytes) : Bytes := (l.map formEncodeByte).flatten

/-- Serialization of a `URLSearchParams` pair list (`toString()`):
`name=value` pieces joined by `'&'`. -/
def serializePairs : List (Bytes × Bytes) → Bytes
  | [] => []
  | [(n, v)] => formEncode n ++ 61 :: formEncode v
  | (n, v) :: rest => formEncode n ++ 61 :: formEncode v ++ 38 :: serializePairs rest

/-- `new URLSearchParams(init)` parsing: split on `'&'`, drop empty pieces,
split each piece on the first `'='` (missing `'='` gives an empty value),
leniently decode names and values. -/
def parseQSPairs (qs : Bytes) : List (Bytes × Bytes) :=
  (splitSep 38 qs).filterMap fun seg =>
    if seg.isEmpty then none
    else
      let p := splitFirst 61 seg
      some (formDecode p.1, formDecode p.2)

/-- `URLSearchParams.get(name)`: value of the first pair with that name,
`null` (`none`) when absent. -/
def getParam (name : Bytes) : List (Bytes × Bytes) → Option Bytes
  | [] => none
  | (n, v) :: rest => if n = name then some v else getParam name rest

/-- Strict percent-decoding: every `'%'` must be followed by exactly two hex
digits, otherwise the whole decode fails (the `URIError` of
`decodeURIComponent`). -/
def pctDecodeStrict : Bytes → Option Bytes
  | [] => some []
  | 37 :: rest =>
    match rest with
    | h1 :: h2 :: rest2 =>
      match hexVal h1, hexVal h2 with
      | some a, some c => (pctDecodeStrict rest2).map ((16 * a + c) :: ·)
      | _, _ => none
    | _ => none
  | b :: rest => (pctDecodeStrict rest).map (b :: ·)

/-- Is `b` a UTF-8 continuation byte? -/
def utf8Cont (b : Nat) : Bool := 128 ≤ b && b ≤ 191

/-- Strict UTF-8 validity of a byte string (no overlong forms, no surrogates,
code points at most U+10FFFF), as required by `decodeURIComponent`. -/
def utf8Valid : Bytes → Bool
  | [] => true
  | b :: rest =>
    if b < 128 then utf8Valid rest
    else if b < 194 then false
    else if b ≤ 223 then
      match rest with
      | b2 :: rest2 => utf8Cont b2 && utf8Valid rest2
      | [] => false
    else if b ≤ 239 then
      match rest with
      | b2 :: b3 :: rest2 =>
        (if b = 224 then 160 ≤ b2 && b2 ≤ 191
         else if b = 237 then 128 ≤ b2 && b2 ≤ 159
         else utf8Cont b2) && utf8Cont b3 && utf8Valid rest2
      | _ => false
    else if b ≤ 244 then
      match rest with
      | b2 :: b3 :: b4 :: rest2 =>
        (if b = 240 then 144 ≤ b2 && b2 ≤ 191
         else if b = 244 then 128 ≤ b2 && b2 ≤ 143
         else utf8Cont b2) && utf8Cont b3 && utf8Cont b4 && utf8Valid rest2
      | _ => false
    else false

/-- `decodeURIComponent`, modelled on bytes: strict percent-decoding followed
by the UTF-8 well-formedness check of the decoded text; `none` models a thrown
`URIError`. -/
def decodeURIComponentM (l : Bytes) : Option Bytes :=
  match pctDecodeStrict l with
  | none => none
  | some bs => if utf8Valid bs then some bs else none

/-! JS numbers. -/

/-- A JS number as far as this codec observes it: a rational, `NaN`, or an
infinity.  Every finite IEEE double is a rational with terminating decimal
expansion. -/
inductive JSNum where
  | fin (q : ℚ)
  | nan
  | posInf
  | negInf
deriving DecidableEq, Repr

/-- The JS comparison `x > 0`.  For a rational, `0 < q` is decided on the
numerator (`0 < q ↔ 0 < q.num`), which the kernel can evaluate. -/
def JSNum.gtZero : JSNum → Bool
  | .fin q => decide (0 < q.num)
  | .nan => false
  | .posInf => true
  | .negInf => false

/-- ASCII decimal digit test. -/
def isDigitB (b : Nat) : Bool := 48 ≤ b && b ≤ 57

/-- ASCII whitespace skipped by `parseFloat`. -/
def isWsB (b : Nat) : Bool :=
  b = 9 || b = 10 || b = 11 || b = 12 || b = 13 || b = 32

/-- Numeric value of a big-endian ASCII digit string. -/
def digitsVal (l : Bytes) : Nat := l.foldl (fun acc d => 10 * acc + (d - 48)) 0

/-- Big-endian decimal digits of `n` (no leading zeros; empty for 0), with
fuel for structural termination. -/
def natDigitsAux : Nat → Nat → Bytes
  | 0, _ => []
  | fuel + 1, n => if n = 0 then [] else natDigitsAux fuel (n / 10) ++ [48 + n % 10]

/-- Big-endian decimal digits of `n`, `"0"` for 0. -/
def natDigits (n : Nat) : Bytes := if n = 0 then [48] else natDigitsAux n n

/-- Exactly `k` big-endian decimal digits of `m` (leading zeros kept). -/
def fracDigits : Nat → Nat → Bytes
  | 0, _ => []
  | k + 1, m => fracDigits k (m / 10) ++ [48 + m % 10]

/-- Smallest `k` with `den ∣ 10 ^ k`, found by bounded search (`none` when the
decimal expansion does not terminate — never the case for an IEEE double). -/
def decExpAux : Nat → Nat → Nat → Option Nat
  | 0, _, _ => none
  | fuel + 1, den, k => if 10 ^ k % den = 0 then some k else decExpAux fuel den (k + 1)

/-- Smallest `k` with `den ∣ 10 ^ k`, if any. -/
def decExp (den : Nat) : Option Nat := decExpAux (den + 1) den 0

/-- JS `Number.prototype.toString()` on the modelled fragment: plain decimal
notation for finite values (which is what `toString` produces for every amount
a user can enter), `Infinity` / `NaN` literals otherwise.  Rationals without a
terminating decimal expansion (not IEEE doubles) get an inert `num/den`
fallback spelling. -/
def numToString : JSNum → Bytes
  | .nan => s2b "NaN"
  | .posInf => s2b "Infinity"
  | .negInf => s2b "-Infinity"
  | .fin q =>
    let sign : Bytes := if q.num < 0 then [45] else []
    if q.num = 0 then [48]
    else
      match decExp q.den with
      | some k =>
        let n := q.num.natAbs * (10 ^ k / q.den)
        if k = 0 then sign ++ natDigits n
        else sign ++ natDigits (n / 10 ^ k) ++ 46 :: fracDigits k (n % 10 ^ k)
      | none => sign ++ natDigits q.num.natAbs ++ 47 :: natDigits q.den

/-- The exact rational value `sign * mant * 10 ^ (e - fracLen)`, built with
`mkRat` so that the kernel can normalize it. -/
def decValue (sign : Int) (mant : Nat) (fracLen : Nat) (e : Int) : ℚ :=
  let p : Int := e - fracLen
  if 0 ≤ p then mkRat (sign * mant * 10 ^ p.toNat) 1
  else mkRat (sign * mant) (10 ^ (-p).toNat)

/-- ECMA-262 `parseFloat`: skip leading whitespace, read an optional sign,
then the longest prefix that is a decimal literal (`Infinity`, or digits with
an optional fraction and exponent); trailing garbage is ignored; no digits at
all gives `NaN` (`none`). -/
def jsParseFloat (s : Bytes) : Option JSNum :=
  let l0 := s.dropWhile isWsB
  let sign : Int := match l0 with
    | b :: _ => if b = 45 then -1 else 1
    | [] => 1
  let l1 : Bytes := match l0 with
    | b :: rest => if b = 43 || b = 45 then rest else l0
    | [] => l0
  if (s2b "Infinity").isPrefixOf l1 then
    some (if sign = 1 then JSNum.posInf else JSNum.negInf)
  else
    let intDs := l1.takeWhile isDigitB
    let l2 := l1.dropWhile isDigitB
    let fracDs : Bytes := match l2 with
      | b :: rest => if b = 46 then rest.takeWhile isDigitB else []
      | [] => []
    let l3 : Bytes := match l2 with
      | b :: rest => if b = 46 then rest.dropWhile isDigitB else l2
      | [] => l2
    if intDs.isEmpty && fracDs.isEmpty then none
    else
      let e : Int := match l3 with
        | b :: rest =>
          if b = 101 || b = 69 then
            match rest with
            | c :: rest2 =>
              if c = 43 then (digitsVal (rest2.takeWhile isDigitB) : Int)
              else if c = 45 then -(digitsVal (rest2.takeWhile isDigitB) : Int)
              else (digitsVal (rest.takeWhile isDigitB) : Int)
            | [] => (digitsVal (List.takeWhile isDigitB []) : Int)
          else 0
        | [] => 0
      let mant : Nat := digitsVal intDs * 10 ^ fracDs.length + digitsVal fracDs
      some (JSNum.fin (decValue sign mant fracDs.length e))

/-! Base58 and address validation. -/

/-- The Bitcoin base58 alphabet used by `bs58`. -/
def b58Alphabet : Bytes := s2b "123456789ABCDEFGHJKLMNPQRSTUVWXYZabcdefghijkmnopqrstuvwxyz"

/-- Index of the first occurrence of `b`. -/
def idxOf (b : Nat) : Bytes → Option Nat
  | [] => none
  | x :: rest => if x = b then some 0 else (idxOf b rest).map (· + 1)

/-- Base58 digit value of a byte. -/
def b58Digit (b : Nat) : Option Nat := idxOf b b58Alphabet

/-- Base58 value of a byte string; `none` when a byte is outside the alphabet
(`bs58.decode` throws there). -/
def b58Nat (l : Bytes) : Option Nat :=
  l.foldl
    (fun acc b =>
      match acc, b58Digit b with
      | some n, some d => some (58 * n + d)
      | _, _ => none)
    (some 0)

/-- Number of bytes in the minimal big-endian representation of `n`, with fuel
for structural termination. -/
def natBytesLenAux : Nat → Nat → Nat
  | 0, _ => 0
  | fuel + 1, n => if n = 0 then 0 else 1 + natBytesLenAux fuel (n / 256)

/-- Number of bytes in the minimal big-endian representation of `n`. -/
def natBytesLen (n : Nat) : Nat := natBytesLenAux n n

/-- Length in bytes of `bs58.decode`: one zero byte per leading `'1'`, plus
the minimal bytes of the remaining base58 value; `none` on an invalid
character. -/
def b58DecodedLen (l : Bytes) : Option Nat :=
  match b58Nat (l.dropWhile (· = 49)) with
  | some n => some ((l.takeWhile (· = 49)).length + natBytesLen n)
  | none => none

/-- `isValidSolanaAddress` from `src/lib/validators.ts`: non-empty, length in
[32, 44], and `new PublicKey(address)` succeeds — i.e. the string base58-decodes
to exactly 32 bytes. -/
def isValidSolanaAddress (a : Bytes) : Bool :=
  if a.isEmpty then false
  else if a.length < 32 || 44 < a.length then false
  else decide (b58DecodedLen a = some 32)

/-! The codec. -/

/-- `ParsedPaymentQR` from `src/lib/validators.ts`. -/
structure ParsedPaymentQR where
  address : Bytes
  amount : Option JSNum := none
  label : Option Bytes := none
  memo : Option Bytes := none
  token : Option Bytes := none
deriving DecidableEq, Repr

/-- The address piece `parsePaymentQR` inspects: first `split('?')` segment of
the input with the scheme prefix removed. -/
def addressPart (data : Bytes) : Bytes :=
  (splitSep 63 (data.drop SOLANA_PAY_PROTOCOL.length)).headD []

/-- The query piece `parsePaymentQR` hands to `URLSearchParams`: second
`split('?')` segment, or empty when there is none (`queryString || ''`). -/
def queryPart (data : Bytes) : Bytes :=
  ((splitSep 63 (data.drop SOLANA_PAY_PROTOCOL.length))[1]?).getD []

/-- The parsed query parameters of `parsePaymentQR`. -/
def paramsOf (data : Bytes) : List (Bytes × Bytes) := parseQSPairs (queryPart data)

/-- Amount handling of `parsePaymentQR` (lines 99-105 of
`src/lib/validators.ts`) applied to `params.get('amount')`: kept only when the
string is truthy, parses to a non-`NaN` number, and is positive. -/
def amountStep : Option Bytes → Option JSNum
  | some v =>
    if v.isEmpty then none
    else
      match jsParseFloat v with
      | some a => if a.gtZero then some a else none
      | none => none
  | none => none

/-- Label and memo handling of `parsePaymentQR` (lines 107-115): a truthy
value goes through `decodeURIComponent`; the outer `some` layer models normal
completion, while a `none` result is the thrown `URIError` that the `catch`
turns into `null`. -/
def textStep : Option Bytes → Option (Option Bytes)
  | some v =>
    if v.isEmpty then some none
    else
      match decodeURIComponentM v with
      | some d => some (some d)
      | none => none
  | none => some none

/-- Token handling of `parsePaymentQR` (lines 117-120): kept only when truthy
and address-valid. -/
def tokenStep : Option Bytes → Option Bytes
  | some v => if !v.isEmpty && isValidSolanaAddress v then some v else none
  | none => none

/-- The parameter-processing tail of `parsePaymentQR` (lines 96-122 of
`src/lib/validators.ts`), assembled from the three steps above. -/
def processParams (address : Bytes) (params : List (Bytes × Bytes)) :
    Option ParsedPaymentQR :=
  let amount := amountStep (getParam (s2b "amount") params)
  match textStep (getParam (s2b "label") params) with
  | none => none
  | some label =>
    match textStep (getParam (s2b "memo") params) with
    | none => none
    | some memo =>
      some { address, amount, label, memo,
             token := tokenStep (getParam (s2b "spl-token") params) }

/-- `parsePaymentQR` from `src/lib/validators.ts`: scheme gate, split on
`'?'`, address gate, then parameter processing; any internal
`decodeURIComponent` exception yields `null`. -/
def parsePaymentQR (data : Bytes) : Option ParsedPaymentQR :=
  if data.isEmpty || !(SOLANA_PAY_PROTOCOL.isPrefixOf data) then none
  else
    let address := addressPart data
    if address.isEmpty || !(isValidSolanaAddress address) then none
    else processParams address (paramsOf data)

/-- The `amount` pair appended by `generatePaymentQR` (lines 140-142 of
`src/lib/validators.ts`): only when the amount is defined and positive. -/
def amountPiece : Option JSNum → List (Bytes × Bytes)
  | some a => if a.gtZero then [(s2b "amount", numToString a)] else []
  | none => []

/-- A text pair (`label`, `memo` or `spl-token`) appended by
`generatePaymentQR` (lines 144-154): only when the value is truthy. -/
def textPiece (name : Bytes) : Option Bytes → List (Bytes × Bytes)
  | some l => if l.isEmpty then [] else [(name, l)]
  | none => []

/-- The `URLSearchParams` pair list built by `generatePaymentQR`: `amount`
(only when defined and positive), then truthy `label`, `memo`, `spl-token`,
in that order. -/
def genPairs (options : ParsedPaymentQR) : List (Bytes × Bytes) :=
  amountPiece options.amount ++ textPiece (s2b "label") options.label ++
    textPiece (s2b "memo") options.memo ++ textPiece (s2b "spl-token") options.token

/-- The `amount` value `generatePaymentQR` emits: present exactly when the
amount is defined and positive. -/
def genAmountParam : Option JSNum → Option Bytes
  | some a => if a.gtZero then some (numToString a) else none
  | none => none

/-- The `label`, `memo` or `spl-token` value `generatePaymentQR` emits:
present exactly when the field is truthy (defined and non-empty). -/
def genTextParam : Option Bytes → Option Bytes
  | some l => if l.isEmpty then none else some l
  | none => none

/-- A hypothesis shape for the amended round-trip claim: an absent amount, or
a finite positive value with terminating decimal expansion (every positive
IEEE double satisfies this). -/
def goodAmount : Option JSNum → Bool
  | none => true
  | some (.fin q) => decide (0 < q.num) && (decExp q.den).isSome
  | some _ => false

/-- A hypothesis shape for the amended round-trip claim: an absent text field,
or a non-empty byte string of a JS string (valid UTF-8, bytes below 256) that
contains no percent sign. -/
def goodText : Option Bytes → Bool
  | none => true
  | some v => !v.isEmpty && v.all (· < 256) && utf8Valid v && v.all (· ≠ 37)

/-- A hypothesis shape for the round-trip claim: an absent token, or a valid
address. -/
def goodToken : Option Bytes → Bool
  | none => true
  | some t => isValidSolanaAddress t

/-- `generatePaymentQR` from `src/lib/validators.ts`: serialize the parameter
list and prepend scheme and address (with `'?'` only when the query is
non-empty). -/
def generatePaymentQR (options : ParsedPaymentQR) : Bytes :=
  let queryString := serializePairs (genPairs options)
  SOLANA_PAY_PROTOCOL ++ options.address ++
    (if queryString.isEmpty then [] else 63 :: queryString)

/-! The error classifier (`src/lib/errors.ts`).  Error texts are ASCII, so
their byte sequences (`Bytes`) represent them exactly; JS
`String.prototype.toLowerCase` acts on ASCII as the byte map below. -/

/-- ASCII lowercasing of one byte (`toLowerCase` restricted to ASCII). -/
def lowerByte (b : Nat) : Nat := if 65 ≤ b ∧ b ≤ 90 then b + 32 else b

/-- ASCII `String.prototype.toLowerCase`. -/
def toLowerB (l : Bytes) : Bytes := l.map lowerByte

/-- JS substring test `haystack.includes(needle)`. -/
def bContains (haystack needle : Bytes) : Bool :=
  haystack.tails.any fun t => needle.isPrefixOf t

/-- A plain JS `Error` as the classifier observes it: its `message`. -/
structure JsError where
  message : Bytes
deriving DecidableEq, Repr

/-- `ErrorCodes` from `src/lib/errors.ts`. -/
inductive ErrorCode where
  | AUTH_BIOMETRIC_NOT_AVAILABLE
  | AUTH_BIOMETRIC_NOT_ENROLLED
  | AUTH_BIOMETRIC_FAILED
  | AUTH_CANCELLED
  | AUTH_CONNECTION_FAILED
  | WALLET_NOT_CONNECTED
  | WALLET_SESSION_EXPIRED
  | TX_INSUFFICIENT_BALANCE
  | TX_INVALID_AMOUNT
  | TX_INVALID_RECIPIENT
  | TX_SIGNING_FAILED
  | TX_SUBMISSION_FAILED
  | TX_CONFIRMATION_TIMEOUT
  | NETWORK_ERROR
  | RPC_ERROR
  | QR_INVALID
  | QR_CAMERA_PERMISSION
  | UNKNOWN
deriving DecidableEq, Repr

/-- The string value of each `ErrorCodes` constant. -/
def ErrorCode.str : ErrorCode → Bytes
  | .AUTH_BIOMETRIC_NOT_AVAILABLE => s2b "AUTH_BIOMETRIC_NOT_AVAILABLE"
  | .AUTH_BIOMETRIC_NOT_ENROLLED => s2b "AUTH_BIOMETRIC_NOT_ENROLLED"
  | .AUTH_BIOMETRIC_FAILED => s2b "AUTH_BIOMETRIC_FAILED"
  | .AUTH_CANCELLED => s2b "AUTH_CANCELLED"
  | .AUTH_CONNECTION_FAILED => s2b "AUTH_CONNECTION_FAILED"
  | .WALLET_NOT_CONNECTED => s2b "WALLET_NOT_CONNECTED"
  | .WALLET_SESSION_EXPIRED => s2b "WALLET_SESSION_EXPIRED"
  | .TX_INSUFFICIENT_BALANCE => s2b "TX_INSUFFICIENT_BALANCE"
  | .TX_INVALID_AMOUNT => s2b "TX_INVALID_AMOUNT"
  | .TX_INVALID_RECIPIENT => s2b "TX_INVALID_RECIPIENT"
  | .TX_SIGNING_FAILED => s2b "TX_SIGNING_FAILED"
  | .TX_SUBMISSION_FAILED => s2b "TX_SUBMISSION_FAILED"
  | .TX_CONFIRMATION_TIMEOUT => s2b "TX_CONFIRMATION_TIMEOUT"
  | .NETWORK_ERROR => s2b "NETWORK_ERROR"
  | .RPC_ERROR => s2b "RPC_ERROR"
  | .QR_INVALID => s2b "QR_INVALID"
  | .QR_CAMERA_PERMISSION => s2b "QR_CAMERA_PERMISSION"
  | .UNKNOWN => s2b "UNKNOWN"

/-- `ErrorMessages` from `src/lib/errors.ts` (lines 95-149), verbatim. -/
def ErrorMessages : ErrorCode → Bytes
  | .AUTH_BIOMETRIC_NOT_AVAILABLE =>
    s2b "Biometric authentication is not available on this device. Please set up Face ID or Touch ID in your device settings."
  | .AUTH_BIOMETRIC_NOT_ENROLLED =>
    s2b "No biometric credentials found. Please set up Face ID or Touch ID in your device settings first."
  | .AUTH_BIOMETRIC_FAILED =>
    s2b "Biometric authentication failed. Please try again."
  | .AUTH_CANCELLED =>
    s2b "Authentication was cancelled. Tap \"Get Started\" to try again."
  | .AUTH_CONNECTION_FAILED =>
    s2b "Could not connect to wallet service. Please check your internet connection and try again."
  | .WALLET_NOT_CONNECTED =>
    s2b "Wallet is not connected. Please authenticate first."
  | .WALLET_SESSION_EXPIRED =>
    s2b "Your session has expired. Please authenticate again."
  | .TX_INSUFFICIENT_BALANCE =>
    s2b "Insufficient balance to complete this transaction. Please add funds to your wallet."
  | .TX_INVALID_AMOUNT =>
    s2b "Invalid amount entered. Please enter a valid number between $0.01 and $10,000."
  | .TX_INVALID_RECIPIENT =>
    s2b "Invalid recipient address. Please scan a valid Solana payment QR code."
  | .TX_SIGNING_FAILED =>
    s2b "Failed to sign the transaction. Please try again."
  | .TX_SUBMISSION_FAILED =>
    s2b "Failed to submit the transaction to the network. Please try again."
  | .TX_CONFIRMATION_TIMEOUT =>
    s2b "Transaction is taking longer than expected. It may still complete. Check your transaction history."
  | .NETWORK_ERROR =>
    s2b "Network connection failed. Please check your internet connection."
  | .RPC_ERROR =>
    s2b "Could not connect to Solana network. Please try again later."
  | .QR_INVALID =>
    s2b "This is not a valid Solana payment QR code. Please scan a valid QR code."
  | .QR_CAMERA_PERMISSION =>
    s2b "Camera permission is required to scan QR codes. Please enable camera access in your device settings."
  | .UNKNOWN =>
    s2b "An unexpected error occurred. Please try again."

/-- `WalletError` from `src/lib/errors.ts`: the classified error object. -/
structure WalletError where
  message : Bytes
  userMessage : Bytes
  code : Bytes
  isRecoverable : Bool
  originalError : Option JsError
deriving DecidableEq, Repr

/-- The `unknown` input of `parseError`: an already-classified `WalletError`, a
plain `Error`, or any other value coerced by `String(error)`. -/
inductive ErrInput where
  | walletErr (w : WalletError)
  | jsErr (e : JsError)
  | other (s : Bytes)
deriving DecidableEq, Repr

/-- The message text `parseError` extracts from a non-`WalletError` input:
`originalError?.message || String(error)`; an `Error` with an empty message
falls back to its `String(...)` coercion `"Error"`. -/
def extractMsg : ErrInput → Bytes
  | .walletErr w => w.message
  | .jsErr e => if e.message.isEmpty then s2b "Error" else e.message
  | .other s => s

/-- The pattern-matching tail of `parseError` (lines 172-248 of
`src/lib/errors.ts`): ordered case-insensitive substring rules over the
message, first match wins. -/
def classifyMsg (message : Bytes) (originalError : Option JsError) : WalletError :=
  let lm := toLowerB message
  if bContains lm (s2b "insufficient") || bContains lm (s2b "not enough") ||
      bContains lm (s2b "balance") then
    { message, userMessage := ErrorMessages .TX_INSUFFICIENT_BALANCE,
      code := ErrorCode.str .TX_INSUFFICIENT_BALANCE, isRecoverable := true,
      originalError }
  else if bContains lm (s2b "network") || bContains lm (s2b "timeout") ||
      bContains lm (s2b "connection") then
    { message, userMessage := ErrorMessages .NETWORK_ERROR,
      code := ErrorCode.str .NETWORK_ERROR, isRecoverable := true, originalError }
  else if bContains lm (s2b "cancel") || bContains lm (s2b "abort") ||
      bContains lm (s2b "user rejected") then
    { message, userMessage := ErrorMessages .AUTH_CANCELLED,
      code := ErrorCode.str .AUTH_CANCELLED, isRecoverable := true, originalError }
  else if bContains lm (s2b "offcurve") || bContains lm (s2b "off curve") ||
      bContains lm (s2b "tokenowneroffcurve") then
    { message,
      userMessage := s2b "Invalid recipient address for token transfer. The address may not be a valid wallet.",
      code := ErrorCode.str .TX_INVALID_RECIPIENT, isRecoverable := true,
      originalError }
  else if bContains lm (s2b "invalid") && bContains lm (s2b "address") then
    { message, userMessage := ErrorMessages .TX_INVALID_RECIPIENT,
      code := ErrorCode.str .TX_INVALID_RECIPIENT, isRecoverable := true,
      originalError }
  else
    { message, userMessage := ErrorMessages .UNKNOWN,
      code := ErrorCode.str .UNKNOWN, isRecoverable := true, originalError }

/-- `parseError` from `src/lib/errors.ts`: an input that is already a
`WalletError` is returned as-is; otherwise the extracted message is classified
by the ordered substring rules. -/
def parseError : ErrInput → WalletError
  | .walletErr w => w
  | .jsErr e => classifyMsg (extractMsg (.jsErr e)) (some e)
  | .other s => classifyMsg s none

/-- The 32-character system-program address `"111...1"` (32 ones), which
base58-decodes to 32 zero bytes: a valid address usable as concrete input. -/
def wAddr : Bytes := s2b "11111111111111111111111111111111"

/-- The `originalError` field `parseError` stores for each input shape. -/
def origOf : ErrInput → Option JsError
  | .jsErr e => some e
  | _ => none

/-- The (code, userMessage) pairs the pattern-matching classifier can produce. -/
def classifierPairs : List (Bytes × Bytes) :=
  [(ErrorCode.str .TX_INSUFFICIENT_BALANCE, ErrorMessages .TX_INSUFFICIENT_BALANCE),
   (ErrorCode.str .NETWORK_ERROR, ErrorMessages .NETWORK_ERROR),
   (ErrorCode.str .AUTH_CANCELLED, ErrorMessages .AUTH_CANCELLED),
   (ErrorCode.str .TX_INVALID_RECIPIENT,
     s2b "Invalid recipient address for token transfer. The address may not be a valid wallet."),
   (ErrorCode.str .TX_INVALID_RECIPIENT, ErrorMessages .TX_INVALID_RECIPIENT),
   (ErrorCode.str .UNKNOWN, ErrorMessages .UNKNOWN)]

/-! Supporting lemmas. -/

theorem splitSep_ne_nil (sep : Nat) (l : Bytes) : splitSep sep l ≠ [] := by
  cases l with
  | nil => simp [splitSep]
  | cons b rest =>
    simp only [splitSep]
    cases hs : splitSep sep rest with
    | nil => simp
    | cons h1 t => by_cases hb : b = sep <;> simp [hb]

theorem splitSep_not_mem {sep : Nat} {l : Bytes} (h : sep ∉ l) : splitSep sep l = [l] := by
  induction l with
  | nil => rfl
  | cons b rest ih =>
    simp only [splitSep]
    have hb : b ≠ sep := fun hc => h (hc ▸ List.mem_cons_self b rest)
    rw [ih (fun hm => h (List.mem_cons_of_mem b hm))]
    simp [hb]

theorem splitSep_append {sep : Nat} {a : Bytes} (rest : Bytes) (h : sep ∉ a) :
    splitSep sep (a ++ sep :: rest) = a :: splitSep sep rest := by
  induction a with
  | nil =>
    simp only [List.nil_append, splitSep]
    cases hs : splitSep sep rest with
    | nil => exact absurd hs (splitSep_ne_nil sep rest)
    | cons h1 t => simp
  | cons b bs ih =>
    have hb : b ≠ sep := fun hc => h (hc ▸ List.mem_cons_self b bs)
    simp only [List.cons_append, splitSep, List.append_eq]
    rw [ih (fun hm => h (List.mem_cons_of_mem b hm))]
    simp [hb]

theorem isPrefixOf_append (l t : Bytes) : l.isPrefixOf (l ++ t) = true := by
  induction l with
  | nil => simp [List.isPrefixOf]
  | cons b bs ih => simp [List.isPrefixOf, ih]

theorem b58fold_none (l : Bytes) :
    l.foldl (fun acc b =>
      match acc, b58Digit b with
      | some n, some d => some (58 * n + d)
      | _, _ => none) none = none := by
  induction l with
  | nil => rfl
  | cons c cs ih =>
    simp only [List.foldl_cons]
    rcases b58Digit c with _ | d <;> exact ih

theorem idxOf_mem {b : Nat} {al : Bytes} {i : Nat} (h : idxOf b al = some i) : b ∈ al := by
  induction al generalizing i with
  | nil => simp [idxOf] at h
  | cons x xs ih =>
    by_cases hx : x = b
    · exact hx ▸ List.mem_cons_self x xs
    · simp only [idxOf, if_neg hx] at h
      rcases hj : idxOf b xs with _ | j
      · rw [hj] at h; simp at h
      · exact List.mem_cons_of_mem x (ih hj)

theorem b58Nat_mem_aux (l : Bytes) : ∀ (n : Nat),
    l.foldl (fun acc b =>
      match acc, b58Digit b with
      | some n, some d => some (58 * n + d)
      | _, _ => none) (some n) ≠ none → ∀ b ∈ l, b ∈ b58Alphabet := by
  induction l with
  | nil => intro n _ b hb; cases hb
  | cons c cs ih =>
    intro n hf b hb
    rcases hd : b58Digit c with _ | d
    · exfalso
      apply hf
      simp only [List.foldl_cons, hd]
      exact b58fold_none cs
    · rcases List.mem_cons.mp hb with rfl | hb
      · exact idxOf_mem hd
      · refine ih (58 * n + d) ?_ b hb
        intro hc
        apply hf
        simpa only [List.foldl_cons, hd] using hc

theorem b58Nat_mem {l : Bytes} (h : b58Nat l ≠ none) : ∀ b ∈ l, b ∈ b58Alphabet :=
  b58Nat_mem_aux l 0 h

theorem alphaProps : ∀ b ∈ b58Alphabet,
    b ≠ 63 ∧ b ≠ 38 ∧ b ≠ 61 ∧ b ≠ 37 ∧ b ≠ 43 ∧ b ≠ 32 ∧ urlKeep b = true ∧ b < 256 := by
  decide

theorem valid_bounds {a : Bytes} (h : isValidSolanaAddress a = true) :
    a ≠ [] ∧ 32 ≤ a.length ∧ a.length ≤ 44 := by
  unfold isValidSolanaAddress at h
  split_ifs at h with h1 h2
  simp only [Bool.or_eq_true, decide_eq_true_eq, not_or] at h2
  exact ⟨fun hn => h1 (by simp [hn]), by omega, by omega⟩

theorem valid_mem {a : Bytes} (h : isValidSolanaAddress a = true) :
    ∀ b ∈ a, b ∈ b58Alphabet := by
  unfold isValidSolanaAddress at h
  split_ifs at h with h1 h2
  simp only [decide_eq_true_eq] at h
  unfold b58DecodedLen at h
  intro b hb
  rcases hn : b58Nat (a.dropWhile (· = 49)) with _ | n
  · rw [hn] at h; simp at h
  · have hsplit := List.takeWhile_append_dropWhile (p := (· = 49)) (l := a)
    rw [← hsplit] at hb
    rcases List.mem_append.mp hb with h1' | h2'
    · have h49 := List.mem_takeWhile_imp h1'
      simp only [decide_eq_true_eq] at h49
      subst h49
      decide
    · exact b58Nat_mem (by rw [hn]; simp) b h2'



theorem bool_false_of_ne_true {b : Bool} (h : ¬ b = true) : b = false := by
  cases b
  · rfl
  · exact absurd rfl h

theorem parse_with_query (a qs : Bytes) (ha : isValidSolanaAddress a = true) :
    parsePaymentQR (SOLANA_PAY_PROTOCOL ++ a ++ 63 :: qs) =
      processParams a (parseQSPairs ((splitSep 63 qs).headD [])) := by
  have hne := (valid_bounds ha).1
  have h63 : 63 ∉ a := fun hm => (alphaProps _ (valid_mem ha _ hm)).1 rfl
  have haE : a.isEmpty = false := by
    cases a
    · exact absurd rfl hne
    · rfl
  have hdata : (SOLANA_PAY_PROTOCOL ++ a ++ 63 :: qs).isEmpty = false := by
    simp [SOLANA_PAY_PROTOCOL, s2b]
  have hpre : SOLANA_PAY_PROTOCOL.isPrefixOf (SOLANA_PAY_PROTOCOL ++ a ++ 63 :: qs) = true := by
    rw [List.append_assoc]; exact isPrefixOf_append _ _
  have hdrop : (SOLANA_PAY_PROTOCOL ++ a ++ 63 :: qs).drop SOLANA_PAY_PROTOCOL.length
      = a ++ 63 :: qs := by
    rw [List.append_assoc]; exact List.drop_left _ _
  have hsplit : splitSep 63 (a ++ 63 :: qs) = a :: splitSep 63 qs := splitSep_append qs h63
  have haddr : addressPart (SOLANA_PAY_PROTOCOL ++ a ++ 63 :: qs) = a := by
    unfold addressPart
    rw [hdrop, hsplit]
    rfl
  have hquery : queryPart (SOLANA_PAY_PROTOCOL ++ a ++ 63 :: qs) = (splitSep 63 qs).headD [] := by
    unfold queryPart
    rw [hdrop, hsplit]
    cases hs : splitSep 63 qs with
    | nil => exact absurd hs (splitSep_ne_nil _ _)
    | cons h1 t => simp
  simp only [parsePaymentQR, paramsOf, hdata, hpre, haddr, hquery, haE, ha,
    Bool.not_true, Bool.or_false, Bool.false_or, if_false]
  rfl

theorem parse_no_query (a : Bytes) (ha : isValidSolanaAddress a = true) :
    parsePaymentQR (SOLANA_PAY_PROTOCOL ++ a) = processParams a (parseQSPairs []) := by
  have hne := (valid_bounds ha).1
  have h63 : 63 ∉ a := fun hm => (alphaProps _ (valid_mem ha _ hm)).1 rfl
  have haE : a.isEmpty = false := by
    cases a
    · exact absurd rfl hne
    · rfl
  have hdata : (SOLANA_PAY_PROTOCOL ++ a).isEmpty = false := by
    simp [SOLANA_PAY_PROTOCOL, s2b]
  have hpre : SOLANA_PAY_PROTOCOL.isPrefixOf (SOLANA_PAY_PROTOCOL ++ a) = true :=
    isPrefixOf_append _ _
  have hdrop : (SOLANA_PAY_PROTOCOL ++ a).drop SOLANA_PAY_PROTOCOL.length = a :=
    List.drop_left _ _
  have hsplit : splitSep 63 a = [a] := splitSep_not_mem h63
  have haddr : addressPart (SOLANA_PAY_PROTOCOL ++ a) = a := by
    unfold addressPart
    rw [hdrop, hsplit]
    rfl
  have hquery : queryPart (SOLANA_PAY_PROTOCOL ++ a) = [] := by
    unfold queryPart
    rw [hdrop, hsplit]
    rfl
  simp only [parsePaymentQR, paramsOf, hdata, hpre, haddr, hquery, haE, ha,
    Bool.not_true, Bool.or_false, Bool.false_or, if_false]
  rfl

/-- C7: `parsePaymentQR` returns `null` whenever the address portion (the
text between the scheme prefix and the first `?`) is shorter than 32
characters, longer than 44, or otherwise fails address validation, regardless
of the query-string content. -/
theorem c7_address_gate (data : Bytes)
    (h : (addressPart data).length < 32 ∨ 44 < (addressPart data).length ∨
      isValidSolanaAddress (addressPart data) = false) :
    parsePaymentQR data = none := by
  have hv : isValidSolanaAddress (addressPart data) = false := by
    rcases h with h | h | h
    · by_cases hb : isValidSolanaAddress (addressPart data) = true
      · have := (valid_bounds hb).2.1; omega
      · exact bool_false_of_ne_true hb
    · by_cases hb : isValidSolanaAddress (addressPart data) = true
      · have := (valid_bounds hb).2.2; omega
      · exact bool_false_of_ne_true hb
    · exact h
  simp only [parsePaymentQR, hv]
  split_ifs with h1 h2
  · rfl
  · rfl
  · simp [hv] at h2

/-- C7 witness: a 3-character address portion is rejected. -/
theorem c7_address_gate_witness : parsePaymentQR (s2b "solana:abc?amount=1") = none :=
  c7_address_gate _ (Or.inl (by decide))

/-- C6: for every valid address, `amount=0`, `amount=-5` and `amount=abc`
each decode to a non-null request with the amount field absent. -/
theorem c6_bad_amount_dropped (addr : Bytes) (h : isValidSolanaAddress addr = true) :
    parsePaymentQR (SOLANA_PAY_PROTOCOL ++ addr ++ s2b "?amount=0") = some { address := addr } ∧
    parsePaymentQR (SOLANA_PAY_PROTOCOL ++ addr ++ s2b "?amount=-5") = some { address := addr } ∧
    parsePaymentQR (SOLANA_PAY_PROTOCOL ++ addr ++ s2b "?amount=abc") = some { address := addr } := by
  refine ⟨?_, ?_, ?_⟩
  · rw [show s2b "?amount=0" = 63 :: s2b "amount=0" from rfl,
      parse_with_query _ _ h, splitSep_not_mem (by decide)]
    rfl
  · rw [show s2b "?amount=-5" = 63 :: s2b "amount=-5" from rfl,
      parse_with_query _ _ h, splitSep_not_mem (by decide)]
    rfl
  · rw [show s2b "?amount=abc" = 63 :: s2b "amount=abc" from rfl,
      parse_with_query _ _ h, splitSep_not_mem (by decide)]
    rfl

/-- C6 witness: the three amount inputs evaluated at the concrete system
address. -/
theorem c6_bad_amount_dropped_witness :
    parsePaymentQR (SOLANA_PAY_PROTOCOL ++ wAddr ++ s2b "?amount=0") = some { address := wAddr } ∧
    parsePaymentQR (SOLANA_PAY_PROTOCOL ++ wAddr ++ s2b "?amount=-5") = some { address := wAddr } ∧
    parsePaymentQR (SOLANA_PAY_PROTOCOL ++ wAddr ++ s2b "?amount=abc") = some { address := wAddr } :=
  c6_bad_amount_dropped wAddr (by decide)

/-- C10: label and memo are percent-decoded twice: the query parser already
decodes once and `decodeURIComponent` is applied on top, so a label parameter
written `%2541` decodes to `A`, not to the once-decoded `%41`. -/
theorem c10_double_percent_decode (addr : Bytes) (h : isValidSolanaAddress addr = true) :
    parsePaymentQR (SOLANA_PAY_PROTOCOL ++ addr ++ s2b "?label=%2541") =
      some { address := addr, label := some (s2b "A") } := by
  rw [show s2b "?label=%2541" = 63 :: s2b "label=%2541" from rfl,
    parse_with_query _ _ h, splitSep_not_mem (by decide)]
  rfl

/-- C10 witness: the double decode evaluated at the concrete system
address. -/
theorem c10_double_percent_decode_witness :
    parsePaymentQR (SOLANA_PAY_PROTOCOL ++ wAddr ++ s2b "?label=%2541") =
      some { address := wAddr, label := some (s2b "A") } :=
  c10_double_percent_decode wAddr (by decide)

/-- C2 (amended): `split('?')` splits on every question mark and only the
first two segments are used: the address is the first segment and the query
string is exactly the text between the first and second `?`; everything after
a second `?` is discarded, so appending `?rest` to a URI leaves the parse
result unchanged. -/
theorem c2_query_split_amended (addr q1 rest : Bytes) (ha : isValidSolanaAddress addr = true)
    (h1 : 63 ∉ q1) :
    parsePaymentQR (SOLANA_PAY_PROTOCOL ++ addr ++ 63 :: (q1 ++ 63 :: rest)) =
      parsePaymentQR (SOLANA_PAY_PROTOCOL ++ addr ++ 63 :: q1) := by
  rw [parse_with_query _ _ ha, parse_with_query _ _ ha,
    splitSep_append rest h1, splitSep_not_mem h1]
  rfl

/-- C2 counterexample: in `solana:...?label=a?b` the text after the second
`?` is discarded: the label decodes to `a`, not to the claimed verbatim
`a?b`. -/
theorem c2_query_split_cex :
    parsePaymentQR (s2b "solana:11111111111111111111111111111111?label=a?b") =
      some { address := wAddr, label := some (s2b "a") } ∧
    some (s2b "a") ≠ some (s2b "a?b") := by decide

/-- C5: `parsePaymentQR` is total with `Option` result, and an internal
`decodeURIComponent` failure (modelled by `decodeURIComponentM = none`) on a
truthy label or memo value makes the whole decode return `null` rather than a
partial result or a propagated exception. -/
theorem c5_decode_never_throws (data v : Bytes)
    (hv : getParam (s2b "label") (paramsOf data) = some v ∨
      getParam (s2b "memo") (paramsOf data) = some v)
    (hne : v.isEmpty = false)
    (hdec : decodeURIComponentM v = none) :
    parsePaymentQR data = none := by
  simp only [parsePaymentQR]
  split_ifs with h1 h2
  · rfl
  · rfl
  · unfold processParams
    rcases hv with hl | hm
    · simp [hl, textStep, hne, hdec]
    · rcases hgl : getParam (s2b "label") (paramsOf data) with _ | w
      · simp [hgl, hm, textStep, hne, hdec]
      · by_cases hw : w.isEmpty
        · simp [hgl, hw, hm, textStep, hne, hdec]
        · rcases hdw : decodeURIComponentM w with _ | d
          · simp [hgl, hw, hdw, textStep]
          · simp [hgl, hw, hdw, hm, textStep, hne, hdec]

/-- C5 witness: a label value with malformed percent-encoding (`%zz`) makes
the whole decode return `null`. -/
theorem c5_decode_never_throws_witness :
    parsePaymentQR (s2b "solana:11111111111111111111111111111111?label=%zz") = none :=
  c5_decode_never_throws _ (s2b "%zz") (Or.inl (by decide)) (by decide) (by decide)



theorem formDecode_cons_ne {b : Nat} (rest : Bytes) (h37 : b ≠ 37) (h43 : b ≠ 43) :
    formDecode (b :: rest) = b :: formDecode rest := by
  rw [formDecode.eq_def]
  split <;> simp_all

theorem pctDecodeStrict_cons_ne {b : Nat} (rest : Bytes) (h37 : b ≠ 37) :
    pctDecodeStrict (b :: rest) = (pctDecodeStrict rest).map (b :: ·) := by
  rw [pctDecodeStrict.eq_def]
  split <;> simp_all

theorem hexVal_hexDigit {n : Nat} (h : n < 16) : hexVal (hexDigit n) = some n := by
  unfold hexDigit hexVal
  split_ifs <;> first | (exact congrArg some (by omega)) | omega

theorem formDecode_pct {h1 h2 : Nat} {a c : Nat} (rest : Bytes)
    (H1 : hexVal h1 = some a) (H2 : hexVal h2 = some c) :
    formDecode (37 :: h1 :: h2 :: rest) = (16 * a + c) :: formDecode rest := by
  simp [formDecode, H1, H2]

theorem formDecode_encodeByte_append {b : Nat} (hb : b < 256) (rest : Bytes) :
    formDecode (formEncodeByte b ++ rest) = b :: formDecode rest := by
  unfold formEncodeByte
  split_ifs with h32 hkeep
  · subst h32; rfl
  · have h37 : b ≠ 37 := by rintro rfl; simp [urlKeep] at hkeep
    have h43 : b ≠ 43 := by rintro rfl; simp [urlKeep] at hkeep
    exact formDecode_cons_ne rest h37 h43
  · have hd : b / 16 < 16 := by omega
    have hm : b % 16 < 16 := by omega
    show formDecode (37 :: hexDigit (b / 16) :: hexDigit (b % 16) :: rest) = b :: formDecode rest
    rw [formDecode_pct rest (hexVal_hexDigit hd) (hexVal_hexDigit hm)]
    congr 1
    omega

theorem formDecode_encode_append (v : Bytes) (hv : ∀ x ∈ v, x < 256) (rest : Bytes) :
    formDecode (formEncode v ++ rest) = v ++ formDecode rest := by
  induction v with
  | nil => simp [formEncode]
  | cons b bs ih =>
    have hb : b < 256 := hv b (List.mem_cons_self _ _)
    have hbs : ∀ x ∈ bs, x < 256 := fun x hx => hv x (List.mem_cons_of_mem _ hx)
    show formDecode ((formEncodeByte b ++ formEncode bs) ++ rest) = (b :: bs) ++ formDecode rest
    rw [List.append_assoc, formDecode_encodeByte_append hb, ih hbs]
    rfl

theorem formDecode_encode (v : Bytes) (hv : ∀ x ∈ v, x < 256) :
    formDecode (formEncode v) = v := by
  have := formDecode_encode_append v hv []
  simpa [formDecode] using this

theorem mem_formEncodeByte {x b : Nat} (hx : x ∈ formEncodeByte b) :
    x ≠ 38 ∧ x ≠ 61 ∧ x ≠ 63 := by
  unfold formEncodeByte at hx
  split_ifs at hx with h32 hkeep
  · simp only [List.mem_singleton] at hx
    omega
  · simp only [List.mem_singleton] at hx
    subst hx
    refine ⟨?_, ?_, ?_⟩ <;> rintro rfl <;> simp [urlKeep] at hkeep
  · simp only [List.mem_cons, List.not_mem_nil, or_false] at hx
    rcases hx with rfl | rfl | rfl
    · omega
    · unfold hexDigit; split_ifs <;> omega
    · unfold hexDigit; split_ifs <;> omega

theorem mem_formEncode {x : Nat} {v : Bytes} (hx : x ∈ formEncode v) :
    x ≠ 38 ∧ x ≠ 61 ∧ x ≠ 63 := by
  unfold formEncode at hx
  rcases List.mem_flatten.mp hx with ⟨l, hl, hxl⟩
  rcases List.mem_map.mp hl with ⟨b, _, rfl⟩
  exact mem_formEncodeByte hxl

theorem seg_no38 (n v : Bytes) : 38 ∉ formEncode n ++ 61 :: formEncode v := by
  intro hmem
  rcases List.mem_append.mp hmem with h | h
  · exact (mem_formEncode h).1 rfl
  · rcases List.mem_cons.mp h with h | h
    · exact absurd h (by decide)
    · exact (mem_formEncode h).1 rfl

theorem mem_serializePairs {x : Nat} :
    ∀ ps : List (Bytes × Bytes), x ∈ serializePairs ps → x ≠ 63 := by
  intro ps
  induction ps with
  | nil => intro h; cases h
  | cons p rest ih =>
    obtain ⟨n, v⟩ := p
    cases rest with
    | nil =>
      intro hx
      have hser : serializePairs [(n, v)] = formEncode n ++ 61 :: formEncode v := rfl
      rw [hser] at hx
      rcases List.mem_append.mp hx with h | h
      · exact (mem_formEncode h).2.2
      · rcases List.mem_cons.mp h with rfl | h
        · decide
        · exact (mem_formEncode h).2.2
    | cons q rest2 =>
      intro hx
      have hser : serializePairs ((n, v) :: q :: rest2)
          = formEncode n ++ 61 :: formEncode v ++ 38 :: serializePairs (q :: rest2) := rfl
      rw [hser] at hx
      rcases List.mem_append.mp hx with h | h
      · rcases List.mem_append.mp h with h | h
        · exact (mem_formEncode h).2.2
        · rcases List.mem_cons.mp h with rfl | h
          · decide
          · exact (mem_formEncode h).2.2
      · rcases List.mem_cons.mp h with rfl | h
        · decide
        · exact ih h

theorem serializePairs_ne_nil : ∀ (p : Bytes × Bytes) (rest : List (Bytes × Bytes)),
    serializePairs (p :: rest) ≠ [] := by
  intro p rest
  obtain ⟨n, v⟩ := p
  cases rest with
  | nil => cases hn : formEncode n <;> simp [serializePairs, hn]
  | cons q rest2 => cases hn : formEncode n <;> simp [serializePairs, hn]

theorem splitFirst_append {a : Bytes} (b : Bytes) (h : 61 ∉ a) :
    splitFirst 61 (a ++ 61 :: b) = (a, b) := by
  induction a with
  | nil => simp [splitFirst]
  | cons c cs ih =>
    have hc : c ≠ 61 := fun hc => h (hc ▸ List.mem_cons_self c cs)
    simp only [List.cons_append, splitFirst, if_neg hc, List.append_eq]
    rw [ih (fun hm => h (List.mem_cons_of_mem c hm))]

theorem append_cons_isEmpty (a : Bytes) (c : Nat) (d : Bytes) :
    (a ++ c :: d).isEmpty = false := by
  cases a <;> rfl

theorem parseQSPairs_single (seg : Bytes) (h38 : 38 ∉ seg) (hne : seg.isEmpty = false) :
    parseQSPairs seg =
      [(formDecode (splitFirst 61 seg).1, formDecode (splitFirst 61 seg).2)] := by
  unfold parseQSPairs
  rw [splitSep_not_mem h38, List.filterMap_cons, List.filterMap_nil]
  simp [hne]

theorem parseQSPairs_append_cons (seg S : Bytes) (h38 : 38 ∉ seg) (hne : seg.isEmpty = false) :
    parseQSPairs (seg ++ 38 :: S) =
      (formDecode (splitFirst 61 seg).1, formDecode (splitFirst 61 seg).2) :: parseQSPairs S := by
  unfold parseQSPairs
  rw [splitSep_append _ h38, List.filterMap_cons]
  simp [hne]

theorem parseQS_serialize : ∀ ps : List (Bytes × Bytes),
    (∀ p ∈ ps, (∀ x ∈ p.1, x < 256) ∧ (∀ x ∈ p.2, x < 256)) →
    parseQSPairs (serializePairs ps) = ps := by
  intro ps
  induction ps with
  | nil => intro _; rfl
  | cons p rest ih =>
    intro hb
    obtain ⟨n, v⟩ := p
    have hn : ∀ x ∈ n, x < 256 := (hb _ (List.mem_cons_self _ _)).1
    have hv : ∀ x ∈ v, x < 256 := (hb _ (List.mem_cons_self _ _)).2
    have h61n : 61 ∉ formEncode n := fun h => (mem_formEncode h).2.1 rfl
    have hne := append_cons_isEmpty (formEncode n) 61 (formEncode v)
    cases rest with
    | nil =>
      show parseQSPairs (formEncode n ++ 61 :: formEncode v) = [(n, v)]
      rw [parseQSPairs_single _ (seg_no38 n v) hne, splitFirst_append _ h61n]
      simp [formDecode_encode _ hn, formDecode_encode _ hv]
    | cons q rest2 =>
      have htail : ∀ p ∈ q :: rest2, (∀ x ∈ p.1, x < 256) ∧ (∀ x ∈ p.2, x < 256) :=
        fun p hp => hb p (List.mem_cons_of_mem _ hp)
      have hser : serializePairs ((n, v) :: q :: rest2)
          = (formEncode n ++ 61 :: formEncode v) ++ 38 :: serializePairs (q :: rest2) := by
        show formEncode n ++ 61 :: formEncode v ++ 38 :: serializePairs (q :: rest2) = _
        simp
      rw [hser, parseQSPairs_append_cons _ _ (seg_no38 n v) hne, splitFirst_append _ h61n]
      simp [formDecode_encode _ hn, formDecode_encode _ hv, ih htail]



theorem digitsVal_append_digit (xs : Bytes) (d : Nat) :
    digitsVal (xs ++ [d]) = 10 * digitsVal xs + (d - 48) := by
  simp [digitsVal, List.foldl_append]

theorem natDigitsAux_spec : ∀ fuel n, n ≤ fuel →
    digitsVal (natDigitsAux fuel n) = n ∧ ∀ b ∈ natDigitsAux fuel n, 48 ≤ b ∧ b ≤ 57 := by
  intro fuel
  induction fuel with
  | zero =>
    intro n hn
    have h0 : n = 0 := by omega
    subst h0
    exact ⟨rfl, by simp [natDigitsAux]⟩
  | succ f ih =>
    intro n hn
    by_cases h0 : n = 0
    · subst h0
      exact ⟨rfl, by simp [natDigitsAux]⟩
    · simp only [natDigitsAux, if_neg h0]
      have hrec := ih (n / 10) (by omega)
      refine ⟨?_, ?_⟩
      · rw [digitsVal_append_digit, hrec.1]
        omega
      · intro b hb
        rcases List.mem_append.mp hb with h | h
        · exact hrec.2 b h
        · simp only [List.mem_singleton] at h
          omega

theorem natDigits_spec (n : Nat) :
    digitsVal (natDigits n) = n ∧ natDigits n ≠ [] ∧
      ∀ b ∈ natDigits n, 48 ≤ b ∧ b ≤ 57 := by
  unfold natDigits
  by_cases h0 : n = 0
  · subst h0
    refine ⟨rfl, by simp, by simp⟩
  · simp only [if_neg h0]
    have h := natDigitsAux_spec n n le_rfl
    refine ⟨h.1, ?_, h.2⟩
    cases n with
    | zero => exact absurd rfl h0
    | succ m =>
      simp only [natDigitsAux, if_neg h0]
      simp

theorem fracDigits_spec : ∀ k m, m < 10 ^ k →
    digitsVal (fracDigits k m) = m ∧ (fracDigits k m).length = k ∧
      ∀ b ∈ fracDigits k m, 48 ≤ b ∧ b ≤ 57 := by
  intro k
  induction k with
  | zero =>
    intro m hm
    have h0 : m = 0 := by simpa using hm
    subst h0
    exact ⟨rfl, rfl, by simp [fracDigits]⟩
  | succ f ih =>
    intro m hm
    have hdiv : m / 10 < 10 ^ f := by
      rw [Nat.div_lt_iff_lt_mul (by norm_num)]
      calc m < 10 ^ (f + 1) := hm
        _ = 10 ^ f * 10 := by ring
    have hrec := ih (m / 10) hdiv
    simp only [fracDigits]
    refine ⟨?_, ?_, ?_⟩
    · rw [digitsVal_append_digit, hrec.1]
      omega
    · simp [hrec.2.1]
    · intro b hb
      rcases List.mem_append.mp hb with h | h
      · exact hrec.2.2 b h
      · simp only [List.mem_singleton] at h
        omega

theorem decExpAux_dvd : ∀ fuel den k k', decExpAux fuel den k = some k' → 10 ^ k' % den = 0 := by
  intro fuel
  induction fuel with
  | zero => intro den k k' h; simp [decExpAux] at h
  | succ f ih =>
    intro den k k' h
    simp only [decExpAux] at h
    split_ifs at h with hc
    · cases h
      exact hc
    · exact ih den (k + 1) k' h

theorem decExp_dvd {den k : Nat} (h : decExp den = some k) : den ∣ 10 ^ k :=
  Nat.dvd_of_mod_eq_zero (decExpAux_dvd (den + 1) den 0 k h)

theorem takeWhile_all_append (p : Nat → Bool) (ds rest : Bytes) (h : ∀ b ∈ ds, p b = true) :
    (ds ++ rest).takeWhile p = ds ++ rest.takeWhile p ∧
      (ds ++ rest).dropWhile p = rest.dropWhile p := by
  induction ds with
  | nil => simp
  | cons c cs ih =>
    have hc : p c = true := h c (List.mem_cons_self _ _)
    have ihr := ih fun b hb => h b (List.mem_cons_of_mem _ hb)
    simp [List.takeWhile_cons, List.dropWhile_cons, hc, ihr.1, ihr.2]


theorem takeWhile_all (p : Nat → Bool) (fs : Bytes) (h : ∀ b ∈ fs, p b = true) :
    fs.takeWhile p = fs ∧ fs.dropWhile p = [] := by
  have := takeWhile_all_append p fs [] h
  simpa using this

theorem isPrefixOf_infinity_digit {d : Nat} (hd : d ≤ 57) (t : Bytes) :
    (s2b "Infinity").isPrefixOf (d :: t) = false := by
  have heq : s2b "Infinity" = 73 :: s2b "nfinity" := by decide
  have hne : (73 : Nat) ≠ d := by omega
  rw [heq]
  simp [List.isPrefixOf, hne]

theorem jsParseFloat_digits_frac (ds fs : Bytes) (hne : ds ≠ [])
    (hds : ∀ b ∈ ds, 48 ≤ b ∧ b ≤ 57) (hfs : ∀ b ∈ fs, 48 ≤ b ∧ b ≤ 57) :
    jsParseFloat (ds ++ 46 :: fs) =
      some (.fin (decValue 1 (digitsVal ds * 10 ^ fs.length + digitsVal fs) fs.length 0)) := by
  obtain ⟨d, ds', rfl⟩ : ∃ d ds', ds = d :: ds' := by
    cases ds
    · exact absurd rfl hne
    · exact ⟨_, _, rfl⟩
  have hd := hds d (List.mem_cons_self _ _)
  have hws : isWsB d = false := by simp [isWsB]; omega
  have h45 : d ≠ 45 := by omega
  have h43 : d ≠ 43 := by omega
  have hDigd : isDigitB d = true := by simp [isDigitB]; omega
  have hdig' : ∀ b ∈ ds', isDigitB b = true := by
    intro b hb
    have := hds b (List.mem_cons_of_mem _ hb)
    simp [isDigitB]
    omega
  have hfdig : ∀ b ∈ fs, isDigitB b = true := by
    intro b hb
    have := hfs b hb
    simp [isDigitB]
    omega
  have h46 : isDigitB 46 = false := by decide
  have hT := takeWhile_all_append isDigitB ds' (46 :: fs) hdig'
  have hT1 : (ds' ++ 46 :: fs).takeWhile isDigitB = ds' := by
    have := hT.1
    simpa [List.takeWhile_cons, h46] using this
  have hT2 : (ds' ++ 46 :: fs).dropWhile isDigitB = 46 :: fs := by
    have := hT.2
    simpa [List.dropWhile_cons, h46] using this
  have hfsTake := takeWhile_all isDigitB fs hfdig
  unfold jsParseFloat
  simp only [List.cons_append, List.dropWhile_cons, List.takeWhile_cons, hws, hDigd,
    Bool.false_eq_true, if_false, if_true, hT1, hT2, hfsTake.1, hfsTake.2,
    isPrefixOf_infinity_digit hd.2, h45, h43, h46, decide_False, Bool.or_self, Bool.or_false,
    if_neg h45, if_neg h43, List.isEmpty_cons, Bool.false_and]

theorem jsParseFloat_digits (ds : Bytes) (hne : ds ≠ [])
    (hds : ∀ b ∈ ds, 48 ≤ b ∧ b ≤ 57) :
    jsParseFloat ds = some (.fin (decValue 1 (digitsVal ds) 0 0)) := by
  obtain ⟨d, ds', rfl⟩ : ∃ d ds', ds = d :: ds' := by
    cases ds
    · exact absurd rfl hne
    · exact ⟨_, _, rfl⟩
  have hd := hds d (List.mem_cons_self _ _)
  have hws : isWsB d = false := by simp [isWsB]; omega
  have h45 : d ≠ 45 := by omega
  have h43 : d ≠ 43 := by omega
  have hDigd : isDigitB d = true := by simp [isDigitB]; omega
  have hdig' : ∀ b ∈ ds', isDigitB b = true := by
    intro b hb
    have := hds b (List.mem_cons_of_mem _ hb)
    simp [isDigitB]
    omega
  have hT := takeWhile_all isDigitB ds' hdig'
  unfold jsParseFloat
  simp only [List.dropWhile_cons, List.takeWhile_cons, hws, hDigd,
    Bool.false_eq_true, if_false, if_true, hT.1, hT.2,
    isPrefixOf_infinity_digit hd.2, h45, h43, decide_False, Bool.or_self, Bool.or_false,
    if_neg h45, if_neg h43, List.isEmpty_cons, Bool.false_and]
  show some (JSNum.fin (decValue 1 (digitsVal (d :: ds') * 10 ^ (0 : Nat) + 0) 0 0)) = _
  norm_num [digitsVal]


theorem mkRat_natCast_eq (n : Nat) (k : Nat) (q : ℚ)
    (hq : 0 < q.num) (hdvd : q.den ∣ 10 ^ k)
    (hn : n = q.num.natAbs * (10 ^ k / q.den)) :
    mkRat (n : Int) ((10 : Nat) ^ k) = q := by
  have hc : 10 ^ k / q.den * q.den = 10 ^ k := Nat.div_mul_cancel hdvd
  set c := 10 ^ k / q.den with hcdef
  have hc0 : c ≠ 0 := by
    intro h
    rw [h] at hc
    simp at hc
    exact absurd hc (by positivity)
  have hden0 : (q.den : ℚ) ≠ 0 := by
    exact_mod_cast q.den_nz
  have hcQ : (c : ℚ) ≠ 0 := by
    exact_mod_cast hc0
  rw [Rat.mkRat_eq_div, hn]
  push_cast
  rw [show ((10 : ℚ) ^ k) = (q.den : ℚ) * c by
    rw [show (q.den : ℚ) * c = ((q.den * c : ℕ) : ℚ) by push_cast; ring]
    rw [show q.den * c = 10 ^ k from by rw [mul_comm]; exact hc]
    push_cast
    ring]
  rw [abs_of_nonneg (show (0 : ℚ) ≤ (q.num : ℚ) from by exact_mod_cast hq.le)]
  rw [mul_div_mul_right _ _ hcQ]
  exact Rat.num_div_den q

theorem jsParseFloat_numToString {q : ℚ} (hq : 0 < q.num) {k : Nat}
    (hk : decExp q.den = some k) :
    jsParseFloat (numToString (.fin q)) = some (.fin q) := by
  have hql : ¬(q.num < 0) := by omega
  have hq0 : ¬(q.num = 0) := by omega
  have hdvd := decExp_dvd hk
  unfold numToString
  simp only [if_neg hql, if_neg hq0, hk, List.nil_append]
  by_cases hk0 : k = 0
  · subst hk0
    rw [if_pos rfl]
    have hs := natDigits_spec (q.num.natAbs * (10 ^ 0 / q.den))
    rw [jsParseFloat_digits _ hs.2.1 hs.2.2, hs.1]
    have hV : decValue 1 (q.num.natAbs * (10 ^ 0 / q.den)) 0 0 =
        mkRat ((q.num.natAbs * (10 ^ 0 / q.den) : ℕ) : Int) ((10 : Nat) ^ 0) := by
      unfold decValue
      norm_num
    rw [hV, mkRat_natCast_eq _ 0 q hq hdvd rfl]
  · rw [if_neg hk0]
    set n := q.num.natAbs * (10 ^ k / q.den) with hndef
    have h1 := natDigits_spec (n / 10 ^ k)
    have hmod : n % 10 ^ k < 10 ^ k := Nat.mod_lt _ (by positivity)
    have h2 := fracDigits_spec k (n % 10 ^ k) hmod
    rw [jsParseFloat_digits_frac _ _ h1.2.1 h1.2.2 h2.2.2]
    have hV : decValue 1 (digitsVal (natDigits (n / 10 ^ k)) * 10 ^ (fracDigits k (n % 10 ^ k)).length
        + digitsVal (fracDigits k (n % 10 ^ k))) (fracDigits k (n % 10 ^ k)).length 0
        = mkRat (n : Int) ((10 : Nat) ^ k) := by
      rw [h1.1, h2.1, h2.2.1]
      have hdm : n / 10 ^ k * 10 ^ k + n % 10 ^ k = n := by
        rw [mul_comm]
        exact Nat.div_add_mod n (10 ^ k)
      rw [hdm]
      unfold decValue
      rw [if_neg (by omega)]
      congr 1
      · ring
      · congr 1
        omega
    rw [hV, mkRat_natCast_eq _ k q hq hdvd rfl]

theorem numToString_pos_spec {q : ℚ} (hq : 0 < q.num) {k : Nat}
    (hk : decExp q.den = some k) :
    numToString (.fin q) ≠ [] ∧ ∀ b ∈ numToString (.fin q), b < 256 := by
  have hql : ¬(q.num < 0) := by omega
  have hq0 : ¬(q.num = 0) := by omega
  unfold numToString
  simp only [if_neg hql, if_neg hq0, hk, List.nil_append]
  by_cases hk0 : k = 0
  · subst hk0
    rw [if_pos rfl]
    have hs := natDigits_spec (q.num.natAbs * (10 ^ 0 / q.den))
    exact ⟨hs.2.1, fun b hb => by have := hs.2.2 b hb; omega⟩
  · rw [if_neg hk0]
    set n := q.num.natAbs * (10 ^ k / q.den)
    have h1 := natDigits_spec (n / 10 ^ k)
    have hmod : n % 10 ^ k < 10 ^ k := Nat.mod_lt _ (by positivity)
    have h2 := fracDigits_spec k (n % 10 ^ k) hmod
    constructor
    · intro hcon
      have : natDigits (n / 10 ^ k) = [] := by
        cases hc : natDigits (n / 10 ^ k)
        · rfl
        · rw [hc] at hcon; cases hcon
      exact h1.2.1 this
    · intro b hb
      rcases List.mem_append.mp hb with h | h
      · have := h1.2.2 b h; omega
      · rcases List.mem_cons.mp h with rfl | h
        · omega
        · have := h2.2.2 b h; omega



theorem pctDecodeStrict_no37 (v : Bytes) (h : ∀ x ∈ v, x ≠ 37) :
    pctDecodeStrict v = some v := by
  induction v with
  | nil => rfl
  | cons b bs ih =>
    rw [pctDecodeStrict_cons_ne bs (h b (List.mem_cons_self _ _)),
      ih (fun x hx => h x (List.mem_cons_of_mem _ hx))]
    rfl

theorem decodeURIComponentM_id (v : Bytes) (h37 : ∀ x ∈ v, x ≠ 37)
    (hu : utf8Valid v = true) : decodeURIComponentM v = some v := by
  unfold decodeURIComponentM
  rw [pctDecodeStrict_no37 v h37]
  simp [hu]

theorem isEmpty_false_of_ne {l : Bytes} (h : l ≠ []) : l.isEmpty = false := by
  cases l
  · exact absurd rfl h
  · rfl

theorem nm_la : s2b "label" ≠ s2b "amount" := by decide
theorem nm_ma : s2b "memo" ≠ s2b "amount" := by decide
theorem nm_ta : s2b "spl-token" ≠ s2b "amount" := by decide
theorem nm_al : s2b "amount" ≠ s2b "label" := by decide
theorem nm_ml : s2b "memo" ≠ s2b "label" := by decide
theorem nm_tl : s2b "spl-token" ≠ s2b "label" := by decide
theorem nm_am : s2b "amount" ≠ s2b "memo" := by decide
theorem nm_lm : s2b "label" ≠ s2b "memo" := by decide
theorem nm_tm : s2b "spl-token" ≠ s2b "memo" := by decide
theorem nm_at : s2b "amount" ≠ s2b "spl-token" := by decide
theorem nm_lt : s2b "label" ≠ s2b "spl-token" := by decide
theorem nm_mt : s2b "memo" ≠ s2b "spl-token" := by decide

theorem getParam_append (name : Bytes) (xs ys : List (Bytes × Bytes)) :
    getParam name (xs ++ ys) =
      match getParam name xs with
      | some v => some v
      | none => getParam name ys := by
  induction xs with
  | nil => rfl
  | cons p rest ih =>
    obtain ⟨n, v⟩ := p
    by_cases h : n = name <;> simp [getParam, h, ih]

theorem gp_gen_amount (r : ParsedPaymentQR) :
    getParam (s2b "amount") (genPairs r) = genAmountParam r.amount := by
  obtain ⟨addr, amt, lab, mem, tok⟩ := r
  rcases amt with _ | a <;> rcases lab with _ | l <;> rcases mem with _ | m <;>
    rcases tok with _ | t <;>
    simp only [genPairs, amountPiece, textPiece, genAmountParam] <;> (try split_ifs) <;>
    simp_all [getParam_append, getParam, nm_la, nm_ma, nm_ta]

theorem gp_gen_label (r : ParsedPaymentQR) :
    getParam (s2b "label") (genPairs r) = genTextParam r.label := by
  obtain ⟨addr, amt, lab, mem, tok⟩ := r
  rcases amt with _ | a <;> rcases lab with _ | l <;> rcases mem with _ | m <;>
    rcases tok with _ | t <;>
    simp only [genPairs, amountPiece, textPiece, genTextParam] <;> (try split_ifs) <;>
    simp_all [getParam_append, getParam, nm_al, nm_ml, nm_tl]

theorem gp_gen_memo (r : ParsedPaymentQR) :
    getParam (s2b "memo") (genPairs r) = genTextParam r.memo := by
  obtain ⟨addr, amt, lab, mem, tok⟩ := r
  rcases amt with _ | a <;> rcases lab with _ | l <;> rcases mem with _ | m <;>
    rcases tok with _ | t <;>
    simp only [genPairs, amountPiece, textPiece, genTextParam] <;> (try split_ifs) <;>
    simp_all [getParam_append, getParam, nm_am, nm_lm, nm_tm]

theorem gp_gen_token (r : ParsedPaymentQR) :
    getParam (s2b "spl-token") (genPairs r) = genTextParam r.token := by
  obtain ⟨addr, amt, lab, mem, tok⟩ := r
  rcases amt with _ | a <;> rcases lab with _ | l <;> rcases mem with _ | m <;>
    rcases tok with _ | t <;>
    simp only [genPairs, amountPiece, textPiece, genTextParam] <;> (try split_ifs) <;>
    simp_all [getParam_append, getParam, nm_at, nm_lt, nm_mt]

theorem amountStep_gen (amt : Option JSNum) (h : goodAmount amt = true) :
    amountStep (genAmountParam amt) = amt := by
  rcases amt with _ | a
  · rfl
  · rcases a with q | _ | _ | _ <;> simp only [goodAmount] at h
    · simp only [Bool.and_eq_true, decide_eq_true_eq, Option.isSome_iff_exists] at h
      obtain ⟨hq, k, hk⟩ := h
      have hgt : (JSNum.fin q).gtZero = true := by simp [JSNum.gtZero, hq]
      have hns := numToString_pos_spec hq hk
      simp only [genAmountParam, hgt, if_true, amountStep,
        isEmpty_false_of_ne hns.1, Bool.false_eq_true, if_false,
        jsParseFloat_numToString hq hk]
    · cases h
    · cases h
    · cases h

theorem textStep_gen (x : Option Bytes) (h : goodText x = true) :
    textStep (genTextParam x) = some x := by
  rcases x with _ | v
  · rfl
  · simp only [goodText, Bool.and_eq_true, Bool.not_eq_true', List.all_eq_true,
      decide_eq_true_eq] at h
    obtain ⟨⟨⟨hne, _⟩, hu⟩, h37⟩ := h
    simp only [genTextParam, hne, Bool.false_eq_true, if_false, textStep,
      decodeURIComponentM_id v h37 hu]

theorem tokenStep_gen (x : Option Bytes) (h : goodToken x = true) :
    tokenStep (genTextParam x) = x := by
  rcases x with _ | t
  · rfl
  · simp only [goodToken] at h
    have hne : t ≠ [] := (valid_bounds h).1
    simp only [genTextParam, isEmpty_false_of_ne hne, Bool.false_eq_true, if_false,
      tokenStep, h, Bool.not_false, Bool.and_self, if_true]

theorem process_gen (r : ParsedPaymentQR)
    (hamt : goodAmount r.amount = true)
    (hlab : goodText r.label = true)
    (hmem : goodText r.memo = true)
    (htok : goodToken r.token = true) :
    processParams r.address (genPairs r) = some r := by
  unfold processParams
  rw [gp_gen_amount, gp_gen_label, gp_gen_memo, gp_gen_token]
  simp only [amountStep_gen _ hamt, textStep_gen _ hlab, textStep_gen _ hmem,
    tokenStep_gen _ htok]


theorem amountPiece_bounds (amt : Option JSNum) (h : goodAmount amt = true) :
    ∀ p ∈ amountPiece amt, (∀ x ∈ p.1, x < 256) ∧ (∀ x ∈ p.2, x < 256) := by
  intro p hp
  rcases amt with _ | a
  · cases hp
  · rcases a with q | _ | _ | _ <;> simp only [goodAmount] at h
    · simp only [Bool.and_eq_true, decide_eq_true_eq, Option.isSome_iff_exists] at h
      obtain ⟨hq, k, hk⟩ := h
      simp only [amountPiece] at hp
      split_ifs at hp with hgt
      · simp only [List.mem_singleton] at hp
        subst hp
        refine ⟨(by decide : ∀ x ∈ s2b "amount", x < 256), ?_⟩
        exact fun x hx => (numToString_pos_spec hq hk).2 x hx
      · cases hp
    · cases h
    · cases h
    · cases h

theorem textPiece_bounds (name : Bytes) (x : Option Bytes)
    (hname : ∀ b ∈ name, b < 256)
    (hx : ∀ v, x = some v → ∀ b ∈ v, b < 256) :
    ∀ p ∈ textPiece name x, (∀ b ∈ p.1, b < 256) ∧ (∀ b ∈ p.2, b < 256) := by
  intro p hp
  rcases x with _ | v
  · cases hp
  · simp only [textPiece] at hp
    split_ifs at hp with he
    · cases hp
    · simp only [List.mem_singleton] at hp
      subst hp
      exact ⟨hname, hx v rfl⟩

theorem genPairs_bounds (r : ParsedPaymentQR)
    (hamt : goodAmount r.amount = true) (hlab : goodText r.label = true)
    (hmem : goodText r.memo = true) (htok : goodToken r.token = true) :
    ∀ p ∈ genPairs r, (∀ x ∈ p.1, x < 256) ∧ (∀ x ∈ p.2, x < 256) := by
  have hGT : ∀ (x : Option Bytes), goodText x = true → ∀ v, x = some v → ∀ b ∈ v, b < 256 := by
    intro x hx v hv b hb
    subst hv
    simp only [goodText, Bool.and_eq_true, List.all_eq_true, decide_eq_true_eq] at hx
    exact hx.1.1.2 b hb
  have hTok : ∀ v, r.token = some v → ∀ b ∈ v, b < 256 := by
    intro v hv b hb
    rw [hv] at htok
    simp only [goodToken] at htok
    exact (alphaProps b (valid_mem htok b hb)).2.2.2.2.2.2.2
  intro p hp
  unfold genPairs at hp
  rcases List.mem_append.mp hp with hp | hp
  · rcases List.mem_append.mp hp with hp | hp
    · rcases List.mem_append.mp hp with hp | hp
      · exact amountPiece_bounds _ hamt p hp
      · exact textPiece_bounds _ _ (by decide) (hGT _ hlab) p hp
    · exact textPiece_bounds _ _ (by decide) (hGT _ hmem) p hp
  · exact textPiece_bounds _ _ (by decide) hTok p hp

/-- C1 (amended): decoding the encoded form reproduces the request
field-for-field for every request with a valid address, an optional positive
amount with terminating decimal expansion (every IEEE double), optional
non-empty label and memo that contain no percent sign, and an optional
address-valid token. The percent-sign restriction is forced by the double
decoding refuted in `c1_roundtrip_cex`. -/
theorem c1_roundtrip_amended (r : ParsedPaymentQR)
    (haddr : isValidSolanaAddress r.address = true)
    (hamt : goodAmount r.amount = true)
    (hlab : goodText r.label = true)
    (hmem : goodText r.memo = true)
    (htok : goodToken r.token = true) :
    parsePaymentQR (generatePaymentQR r) = some r := by
  by_cases hps : genPairs r = []
  · simp only [generatePaymentQR, hps, serializePairs, List.isEmpty_nil, if_true,
      List.append_nil]
    rw [parse_no_query _ haddr,
      show parseQSPairs [] = ([] : List (Bytes × Bytes)) from rfl, ← hps]
    exact process_gen r hamt hlab hmem htok
  · obtain ⟨p, rest, hpr⟩ : ∃ p rest, genPairs r = p :: rest := by
      cases h : genPairs r
      · exact absurd h hps
      · exact ⟨_, _, rfl⟩
    have hqs_ne : serializePairs (genPairs r) ≠ [] := by
      rw [hpr]
      exact serializePairs_ne_nil _ _
    have hqs63 : 63 ∉ serializePairs (genPairs r) :=
      fun hm => mem_serializePairs _ hm rfl
    simp only [generatePaymentQR]
    rw [show (if (serializePairs (genPairs r)).isEmpty = true then []
          else 63 :: serializePairs (genPairs r)) = 63 :: serializePairs (genPairs r) from by
        rw [isEmpty_false_of_ne hqs_ne]
        rfl,
      parse_with_query _ _ haddr, splitSep_not_mem hqs63]
    show processParams r.address (parseQSPairs (serializePairs (genPairs r))) = some r
    rw [parseQS_serialize _ (genPairs_bounds r hamt hlab hmem htok)]
    exact process_gen r hamt hlab hmem htok

/-- C1 counterexample: a request with label `%41` does not round-trip: the
decoded label is `A`, because the label is percent-decoded twice. -/
theorem c1_roundtrip_cex :
    parsePaymentQR (generatePaymentQR { address := wAddr, label := some (s2b "%41") }) =
      some { address := wAddr, label := some (s2b "A") } ∧
    some (s2b "A") ≠ some (s2b "%41") := by decide

/-- C1 witness: a concrete request with all five fields round-trips. -/
theorem c1_roundtrip_amended_witness :
    parsePaymentQR (generatePaymentQR
        { address := wAddr, amount := some (.fin (mkRat 25 2)),
          label := some (s2b "Coffee"), memo := some (s2b "table4"),
          token := some wAddr }) =
      some ({ address := wAddr, amount := some (.fin (mkRat 25 2)),
              label := some (s2b "Coffee"), memo := some (s2b "table4"),
              token := some wAddr } : ParsedPaymentQR) :=
  c1_roundtrip_amended _ (by decide) (by decide) (by decide) (by decide) (by decide)



theorem parse_nonwallet (x : ErrInput) (hw : ∀ w, x ≠ ErrInput.walletErr w) :
    parseError x = classifyMsg (extractMsg x) (origOf x) := by
  cases x with
  | walletErr w => exact absurd rfl (hw w)
  | jsErr e => rfl
  | other s => rfl

theorem classify_mem (m : Bytes) (o : Option JsError) :
    ((classifyMsg m o).code, (classifyMsg m o).userMessage) ∈ classifierPairs := by
  simp only [classifyMsg]
  split_ifs <;> simp [classifierPairs]

/-- C3 (amended): for inputs that are not already `WalletError`s, the
classifier's `userMessage` is a function of the produced `code` for every code
except `TX_INVALID_RECIPIENT`, which carries one of two fixed messages
(off-curve rule vs. invalid-address rule). -/
theorem c3_usermessage_amended (x y : ErrInput)
    (hx : ∀ w, x ≠ ErrInput.walletErr w) (hy : ∀ w, y ≠ ErrInput.walletErr w)
    (hc : (parseError x).code = (parseError y).code)
    (hnr : (parseError x).code ≠ ErrorCode.str ErrorCode.TX_INVALID_RECIPIENT) :
    (parseError x).userMessage = (parseError y).userMessage := by
  rw [parse_nonwallet x hx] at hc hnr ⊢
  rw [parse_nonwallet y hy] at hc ⊢
  have hfin : ∀ p ∈ classifierPairs, ∀ q ∈ classifierPairs,
      p.1 = q.1 → p.1 ≠ ErrorCode.str .TX_INVALID_RECIPIENT → p.2 = q.2 := by decide
  exact hfin _ (classify_mem (extractMsg x) (origOf x)) _
    (classify_mem (extractMsg y) (origOf y)) hc hnr

/-- C3 counterexample: the raw messages `"offcurve"` and `"invalid address"`
both classify to code `TX_INVALID_RECIPIENT` but carry different
`userMessage`s, so `userMessage` is not a function of the code alone. -/
theorem c3_usermessage_cex :
    (parseError (.other (s2b "offcurve"))).code =
      (parseError (.other (s2b "invalid address"))).code ∧
    (parseError (.other (s2b "offcurve"))).userMessage ≠
      (parseError (.other (s2b "invalid address"))).userMessage := by decide

/-- C8: classification rules are tried in order with first match winning: a
message whose lowercase text contains an insufficient-balance keyword
(`insufficient` / `not enough` / `balance`) classifies as
`TX_INSUFFICIENT_BALANCE` even when it also contains a network keyword
(`network` / `timeout` / `connection`), never as `NETWORK_ERROR`. -/
theorem c8_balance_rule_first (x : ErrInput) (hw : ∀ w, x ≠ ErrInput.walletErr w)
    (hbal : bContains (toLowerB (extractMsg x)) (s2b "insufficient") = true ∨
      bContains (toLowerB (extractMsg x)) (s2b "not enough") = true ∨
      bContains (toLowerB (extractMsg x)) (s2b "balance") = true)
    (hnet : bContains (toLowerB (extractMsg x)) (s2b "network") = true ∨
      bContains (toLowerB (extractMsg x)) (s2b "timeout") = true ∨
      bContains (toLowerB (extractMsg x)) (s2b "connection") = true) :
    (parseError x).code = ErrorCode.str .TX_INSUFFICIENT_BALANCE ∧
    (parseError x).code ≠ ErrorCode.str .NETWORK_ERROR := by
  rw [parse_nonwallet x hw]
  have hstep : classifyMsg (extractMsg x) (origOf x) =
      { message := extractMsg x, userMessage := ErrorMessages .TX_INSUFFICIENT_BALANCE,
        code := ErrorCode.str .TX_INSUFFICIENT_BALANCE, isRecoverable := true,
        originalError := origOf x } := by
    rcases hbal with h | h | h <;> simp [classifyMsg, h]
  rw [hstep]
  refine ⟨rfl, ?_⟩
  show ErrorCode.str .TX_INSUFFICIENT_BALANCE ≠ ErrorCode.str .NETWORK_ERROR
  decide

/-- C8 witness: the message `"insufficient network"` matches both rule 1 and
rule 2 and classifies as `TX_INSUFFICIENT_BALANCE`. -/
theorem c8_balance_rule_first_witness :
    (parseError (.other (s2b "insufficient network"))).code =
      ErrorCode.str .TX_INSUFFICIENT_BALANCE ∧
    (parseError (.other (s2b "insufficient network"))).code ≠
      ErrorCode.str .NETWORK_ERROR :=
  c8_balance_rule_first (.other (s2b "insufficient network"))
    (fun _ h => ErrInput.noConfusion h)
    (Or.inl (by decide)) (Or.inl (by decide))

/-- C9: `parseError` is idempotent: an input that is already a `WalletError`
is returned unchanged (all fields preserved), so
`parseError (parseError x) = parseError x` for every input. -/
theorem c9_classify_idempotent : (∀ w, parseError (.walletErr w) = w) ∧
    (∀ x, parseError (.walletErr (parseError x)) = parseError x) :=
  ⟨fun _ => rfl, fun _ => rfl⟩

/-- C4 counterexample: the program binds `RPC_ERROR` (spec: `rpc-error`) to
`"Could not connect to Solana network. ..."`, not the spec's
`"Could not connect to the network. ..."`, and `QR_INVALID` (spec:
`qr-invalid`) to `"This is not a valid Solana payment QR code. ..."`, not the
spec's `"This is not a valid payment QR code. ..."`. -/
theorem c4_literal_messages_cex :
    ErrorMessages .RPC_ERROR ≠ s2b "Could not connect to the network. Please try again later." ∧
    ErrorMessages .QR_INVALID ≠ s2b "This is not a valid payment QR code. Please scan a valid QR code." := by
  decide

/-- C4 (amended): the userMessage bound to each error code, verbatim; it
matches the spec's table except that the program's `invalid-recipient`,
`rpc-error` and `qr-invalid` messages mention Solana: `"... valid Solana
payment QR code."`, `"... Solana network. ..."` and `"... valid Solana payment
QR code. ..."` respectively. -/
theorem c4_literal_messages_amended :
    ErrorMessages .AUTH_BIOMETRIC_NOT_AVAILABLE = s2b "Biometric authentication is not available on this device. Please set up Face ID or Touch ID in your device settings." ∧
    ErrorMessages .AUTH_BIOMETRIC_NOT_ENROLLED = s2b "No biometric credentials found. Please set up Face ID or Touch ID in your device settings first." ∧
    ErrorMessages .AUTH_BIOMETRIC_FAILED = s2b "Biometric authentication failed. Please try again." ∧
    ErrorMessages .AUTH_CANCELLED = s2b "Authentication was cancelled. Tap \"Get Started\" to try again." ∧
    ErrorMessages .AUTH_CONNECTION_FAILED = s2b "Could not connect to wallet service. Please check your internet connection and try again." ∧
    ErrorMessages .WALLET_NOT_CONNECTED = s2b "Wallet is not connected. Please authenticate first." ∧
    ErrorMessages .WALLET_SESSION_EXPIRED = s2b "Your session has expired. Please authenticate again." ∧
    ErrorMessages .TX_INSUFFICIENT_BALANCE = s2b "Insufficient balance to complete this transaction. Please add funds to your wallet." ∧
    ErrorMessages .TX_INVALID_AMOUNT = s2b "Invalid amount entered. Please enter a valid number between $0.01 and $10,000." ∧
    ErrorMessages .TX_INVALID_RECIPIENT = s2b "Invalid recipient address. Please scan a valid Solana payment QR code." ∧
    ErrorMessages .TX_SIGNING_FAILED = s2b "Failed to sign the transaction. Please try again." ∧
    ErrorMessages .TX_SUBMISSION_FAILED = s2b "Failed to submit the transaction to the network. Please try again." ∧
    ErrorMessages .TX_CONFIRMATION_TIMEOUT = s2b "Transaction is taking longer than expected. It may still complete. Check your transaction history." ∧
    ErrorMessages .NETWORK_ERROR = s2b "Network connection failed. Please check your internet connection." ∧
    ErrorMessages .RPC_ERROR = s2b "Could not connect to Solana network. Please try again later." ∧
    ErrorMessages .QR_INVALID = s2b "This is not a valid Solana payment QR code. Please scan a valid QR code." ∧
    ErrorMessages .QR_CAMERA_PERMISSION = s2b "Camera permission is required to scan QR codes. Please enable camera access in your device settings." ∧
    ErrorMessages .UNKNOWN = s2b "An unexpected error occurred. Please try again." := by
  decide

/-- C3 witness: two distinct network-classified messages share the
`NETWORK_ERROR` code and therefore the same userMessage. -/
theorem c3_usermessage_amended_witness :
    (parseError (.other (s2b "timeout"))).userMessage =
      (parseError (.other (s2b "connection lost"))).userMessage :=
  c3_usermessage_amended (.other (s2b "timeout")) (.other (s2b "connection lost"))
    (fun _ h => ErrInput.noConfusion h) (fun _ h => ErrInput.noConfusion h)
    (by decide) (by decide)

/-- C2 witness: the amended split behavior evaluated at a concrete input with
two question marks. -/
theorem c2_query_split_amended_witness :
    parsePaymentQR (SOLANA_PAY_PROTOCOL ++ wAddr ++ 63 :: (s2b "label=a" ++ 63 :: s2b "b")) =
      parsePaymentQR (SOLANA_PAY_PROTOCOL ++ wAddr ++ 63 :: s2b "label=a") :=
  c2_query_split_amended wAddr (s2b "label=a") (s2b "b") (by decide) (by decide)

end PayApp
